import Mathlib

/-!
Verification of the cam-relay media receiver subsystem.

Shallow embedding of `app/src/webrtc_receiver.py`, `app/src/vbcable_player.py`
and `app/src/virtual_cam.py`.  Python floating-point arithmetic is modelled by
exact rational arithmetic; `numpy` float→int casts truncate toward zero, which
is modelled explicitly.
-/

namespace CamRelay

/-! ### Video normalization (`WebRTCReceiver._recv_video`, lines 165–185) -/

/-- Fixed target height `target_h = 720` used by `_recv_video`. -/
def target_h : ℕ := 720

/-- Width computed by `_recv_video`:
`scale = target_h / h; new_w = int(w * scale)`.
Python `int()` truncates toward zero; the value is nonnegative, so over exact
rationals this is `⌊w * 720 / h⌋`, i.e. natural division `(w * 720) / h`. -/
def new_w (w h : ℕ) : ℕ := (w * target_h) / h

/-- Dimensions `(width, height)` of a normalized frame produced by
`cv2.resize(img, (new_w, target_h))`. -/
def normalizedDims (w h : ℕ) : ℕ × ℕ := (new_w w h, target_h)

/-! ### VB-Cable real-time consumer (`vbcable_player.VBCablePlayer`) -/

/-- Mutable state of `VBCablePlayer` relevant to its buffering policy:
the FIFO byte buffer `self._buf` and `self._underflow_count`.
Bytes are modelled as naturals. -/
structure VBCState where
  buf : List ℕ
  underflow_count : ℕ
deriving Repr, DecidableEq

/-- Method `VBCablePlayer.write` (lines 83–90): append raw PCM bytes to the
internal buffer.  The early return on empty input coincides with appending
the empty list. -/
def VBCState.write (s : VBCState) (pcm : List ℕ) : VBCState :=
  { s with buf := s.buf ++ pcm }

/-- Audio-device callback defined in `VBCablePlayer.start` (lines 49–65):
fill `outdata` with `requested` bytes.  If the buffer holds enough, copy and
remove exactly `requested` bytes from the front; otherwise copy everything
available, zero-fill the rest, and bump the underflow counter.  Returns the
bytes written to `outdata` together with the successor state; this is a total
function — the consumer never waits for data. -/
def VBCState.callback (s : VBCState) (requested : ℕ) : List ℕ × VBCState :=
  if requested ≤ s.buf.length then
    (s.buf.take requested, { s with buf := s.buf.drop requested })
  else
    (s.buf ++ List.replicate (requested - s.buf.length) 0,
     { buf := [], underflow_count := s.underflow_count + 1 })

/-! ### Theorems for claims C1 and C2 -/

/-- C1, counterexample.  The claim states the normalized width is
`round(w × 720 / h)`.  For `w = 999`, `h = 1440` the exact quotient is
`499.5`: the code's `int()` truncation yields `499`, while rounding
(`round 499.5 = 500`, also under banker's rounding since `500` is even)
yields `500`. -/
theorem C1_counterexample :
    (normalizedDims 999 1440).1 = 499 ∧
    round ((999 * 720 : ℚ) / 1440) = 500 ∧ (499 : ℤ) ≠ 500 := by
  refine ⟨by decide, ?_, by decide⟩
  norm_num [round_eq]

/-- C1, amended.  For every inbound frame of width `w` and height `h > 0`,
the normalized frame has height `720` and width `⌊w × 720 / h⌋` (truncation,
not rounding); in particular `1280×960` yields width `960` and `1920×1080`
yields width `1280`. -/
theorem C1_theorem (w h : ℕ) (hh : 0 < h) :
    (normalizedDims w h).2 = 720 ∧
    (normalizedDims w h).1 = ⌊((w : ℚ) * 720) / h⌋₊ ∧
    normalizedDims 1280 960 = (960, 720) ∧
    normalizedDims 1920 1080 = (1280, 720) := by
  refine ⟨rfl, ?_, by decide, by decide⟩
  have h1 : ((w : ℚ) * 720) = ((w * 720 : ℕ) : ℚ) := by push_cast; ring
  rw [h1, Nat.floor_div_nat, Nat.floor_natCast]
  rfl

/-- C1, witness for the amended theorem at `w = 1920`, `h = 1080`. -/
theorem C1_witness :
    (normalizedDims 1920 1080).2 = 720 ∧
    (normalizedDims 1920 1080).1 = ⌊((1920 : ℚ) * 720) / 1080⌋₊ ∧
    normalizedDims 1280 960 = (960, 720) ∧
    normalizedDims 1920 1080 = (1280, 720) :=
  C1_theorem 1920 1080 (by decide)

/-- C2.  When the callback requests `N` bytes: the output always has exactly
`N` bytes; if the buffer holds `k < N` bytes the output is the buffered data
in FIFO order followed by `N − k` zeros, the buffer becomes empty and the
underflow counter increments by exactly `1`; if the buffer holds at least `N`
bytes, exactly the first `N` bytes are dequeued from the front and the counter
is unchanged.  `VBCState.callback` is a total function, so the tick never
blocks waiting for data. -/
theorem C2_theorem (s : VBCState) (N : ℕ) :
    ((s.callback N).1.length = N) ∧
    (s.buf.length < N →
      (s.callback N).1 = s.buf ++ List.replicate (N - s.buf.length) 0 ∧
      (s.callback N).2.buf = [] ∧
      (s.callback N).2.underflow_count = s.underflow_count + 1) ∧
    (N ≤ s.buf.length →
      (s.callback N).1 = s.buf.take N ∧
      (s.callback N).2.buf = s.buf.drop N ∧
      (s.callback N).2.underflow_count = s.underflow_count) := by
  by_cases hle : N ≤ s.buf.length
  · refine ⟨?_, fun hlt => absurd hle (not_le.mpr hlt), fun _ => ?_⟩
    · simp [VBCState.callback, hle, List.length_take, Nat.min_eq_left hle]
    · simp [VBCState.callback, hle]
  · refine ⟨?_, fun _ => ?_, fun hge => absurd hge hle⟩
    · simp only [VBCState.callback, hle, if_false, List.length_append,
        List.length_replicate]
      omega
    · simp [VBCState.callback, hle]

/-- C2, witness: the spec's own example — requesting `1920` bytes from a
buffer holding `500` bytes yields the `500` buffered bytes followed by
`1420` zeros, empties the buffer, and increments the counter by `1`. -/
theorem C2_witness :
    ((VBCState.mk (List.replicate 500 7) 0).callback 1920).1 =
      List.replicate 500 7 ++ List.replicate 1420 0 ∧
    ((VBCState.mk (List.replicate 500 7) 0).callback 1920).2.buf = [] ∧
    ((VBCState.mk (List.replicate 500 7) 0).callback 1920).2.underflow_count = 1 := by
  have hb : (VBCState.mk (List.replicate 500 7) 0).buf = List.replicate 500 7 := rfl
  have hlen : (VBCState.mk (List.replicate 500 7) 0).buf.length < 1920 := by
    rw [hb, List.length_replicate]; norm_num
  obtain ⟨h1, h2, h3⟩ := (C2_theorem (VBCState.mk (List.replicate 500 7) 0) 1920).2.1 hlen
  refine ⟨?_, h2, h3⟩
  rw [h1, hb, List.length_replicate]

/-! ### Virtual-camera hand-off queue (`virtual_cam.VirtualCamera`) -/

/-- Capacity of the hand-off queue: `self._q = queue.Queue(maxsize=4)`
(`VirtualCamera.__init__`, line 12). -/
def camQueueCap : ℕ := 4

/-- Method `VirtualCamera.send_frame` (lines 35–40) while the camera is
running: `put_nowait` the frame; on `queue.Full`, `get_nowait` the oldest
frame and enqueue the new one.  Total function — the producer is never
blocked. -/
def sendFrame (q : List α) (f : α) : List α :=
  if q.length < camQueueCap then q ++ [f] else q.tail ++ [f]

/-- Operations on the hand-off queue: the pump submits a frame
(`send_frame`), or the output thread dequeues one (`self._q.get`). -/
inductive CamOp (α : Type) where
  | send (f : α)
  | deq
deriving Repr, DecidableEq

/-- One step of the queue: `send` applies `sendFrame`; `deq` removes the
front element (the output thread receives `q.head?`). -/
def camStep (q : List α) : CamOp α → List α
  | .send f => sendFrame q f
  | .deq => q.tail

/-- Queue contents after a sequence of operations starting from empty. -/
def camRun (ops : List (CamOp α)) : List α := ops.foldl camStep []

/-- Frames submitted by the pump, in submission order. -/
def camSubmitted (ops : List (CamOp α)) : List α :=
  ops.filterMap fun op => match op with | .send f => some f | .deq => none

lemma camStep_sublist (q : List α) (op : CamOp α) :
    List.Sublist (camStep q op) (q ++ camSubmitted [op]) := by
  cases op with
  | send f =>
    simp only [camStep, sendFrame, camSubmitted, List.filterMap]
    split
    · simp
    · exact (q.tail_sublist).append_right [f]
  | deq =>
    simp only [camStep, camSubmitted, List.filterMap, List.append_nil]
    exact q.tail_sublist

lemma camFoldl_sublist (ops : List (CamOp α)) (q : List α) :
    List.Sublist (ops.foldl camStep q) (q ++ camSubmitted ops) := by
  induction ops generalizing q with
  | nil => simp [camSubmitted]
  | cons op ops ih =>
    have h1 := ih (camStep q op)
    have h2 : List.Sublist (camStep q op ++ camSubmitted ops)
        ((q ++ camSubmitted [op]) ++ camSubmitted ops) :=
      (camStep_sublist q op).append_right _
    have h3 : camSubmitted (op :: ops) = camSubmitted [op] ++ camSubmitted ops := by
      cases op <;> simp [camSubmitted]
    have h4 : List.Sublist ((op :: ops).foldl camStep q)
        ((q ++ camSubmitted [op]) ++ camSubmitted ops) := h1.trans h2
    rw [h3, ← List.append_assoc]
    exact h4

lemma camStep_length_le (q : List α) (op : CamOp α) (hq : q.length ≤ camQueueCap) :
    (camStep q op).length ≤ camQueueCap := by
  have ht := q.length_tail
  cases op with
  | send f =>
    simp only [camStep, sendFrame, camQueueCap] at *
    split
    · rename_i h
      simp only [List.length_append, List.length_cons, List.length_nil]
      omega
    · simp only [List.length_append, List.length_cons, List.length_nil, ht]
      omega
  | deq =>
    simp only [camStep, camQueueCap] at *
    omega

lemma camFoldl_length_le (ops : List (CamOp α)) (q : List α)
    (hq : q.length ≤ camQueueCap) : (ops.foldl camStep q).length ≤ camQueueCap := by
  induction ops generalizing q with
  | nil => exact hq
  | cons op ops ih => exact ih _ (camStep_length_le q op hq)

/-- C9.  The hand-off queue holds at most `4` frames after any sequence of
operations; the queue contents are always an in-order sublist of the frames
submitted by the pump (FIFO submission order, with drops); submitting to a
full queue removes the oldest queued frame and enqueues the new one; the
producer is never blocked (`sendFrame` is total). -/
theorem C9_theorem (ops : List (CamOp ℕ)) :
    (camRun ops).length ≤ camQueueCap ∧
    List.Sublist (camRun ops) (camSubmitted ops) ∧
    (∀ (q : List ℕ) (f : ℕ), q.length = camQueueCap →
      sendFrame q f = q.tail ++ [f]) := by
  refine ⟨camFoldl_length_le ops [] (by simp [camQueueCap]),
    by simpa using camFoldl_sublist ops [], fun q f hq => ?_⟩
  simp [sendFrame, hq]

/-- C9, witness: submitting five frames to the empty queue leaves at most
four, a sublist of the submissions; a full queue `[1,2,3,4]` receiving `5`
drops the oldest and becomes `[2,3,4,5]`. -/
theorem C9_witness :
    (camRun [CamOp.send 1, CamOp.send 2, CamOp.send 3, CamOp.send 4,
      CamOp.send 5]).length ≤ camQueueCap ∧
    List.Sublist
      (camRun [CamOp.send 1, CamOp.send 2, CamOp.send 3, CamOp.send 4, CamOp.send 5])
      (camSubmitted [CamOp.send 1, CamOp.send 2, CamOp.send 3, CamOp.send 4,
        CamOp.send 5]) ∧
    sendFrame [1, 2, 3, 4] 5 = [2, 3, 4, 5] := by
  obtain ⟨h1, h2, h3⟩ := C9_theorem
    [CamOp.send 1, CamOp.send 2, CamOp.send 3, CamOp.send 4, CamOp.send 5]
  exact ⟨h1, h2, by rw [h3 [1, 2, 3, 4] 5 (by decide)]; rfl⟩

/-! ### ICE candidate bookkeeping (`WebRTCReceiver.add_candidate` /
`_handle_offer`) -/

/-- An ICE candidate payload; `valid` models presence of the `"candidate"`
key checked by `add_candidate` (line 309). -/
structure Candidate where
  id : ℕ
  valid : Bool
deriving Repr, DecidableEq

/-- Signaling-side events affecting candidate bookkeeping. -/
inductive SigEv where
  /-- Method `add_candidate` is invoked with candidate `c` (lines 308–322). -/
  | cand (c : Candidate)
  /-- Coroutine `_handle_offer` constructs the `RTCPeerConnection` and assigns
  `self._pc = pc` (lines 102–119), before the remote description is set. -/
  | pcCreated
  /-- Awaited `pc.setRemoteDescription(desc)` completes; `_handle_offer` then
  drains `self._pending_candidates` in order and clears it (lines 143–150). -/
  | remoteDescSet
deriving Repr, DecidableEq

/-- Candidate-bookkeeping state of `WebRTCReceiver`: whether `self._pc` is
set, the queue `self._pending_candidates`, and the ordered list of candidates
passed to `pc.addIceCandidate` so far. -/
structure IceState where
  pcExists : Bool
  pending : List Candidate
  applied : List Candidate
deriving Repr, DecidableEq

/-- Transition of the candidate bookkeeping on one event, read off the code:
an invalid candidate is ignored; a candidate with no `self._pc` is appended
to the pending queue; otherwise it is passed to `pc.addIceCandidate`
immediately; when the remote description is set, the pending queue is drained
into `addIceCandidate` in arrival order and cleared. -/
def iceStep (s : IceState) : SigEv → IceState
  | .cand c =>
      if !c.valid then s
      else if !s.pcExists then { s with pending := s.pending ++ [c] }
      else { s with applied := s.applied ++ [c] }
  | .pcCreated => { s with pcExists := true }
  | .remoteDescSet => { s with applied := s.applied ++ s.pending, pending := [] }

/-- Initial state of a fresh `WebRTCReceiver`. -/
def iceInit : IceState := ⟨false, [], []⟩

/-- State after processing a sequence of signaling events. -/
def iceRun (evs : List SigEv) : IceState := evs.foldl iceStep iceInit

lemma sigEv_cand_inj (c2 c : Candidate) :
    (SigEv.cand c2 = SigEv.cand c) ↔ (c2 = c) := by
  constructor
  · intro h; cases h; rfl
  · intro h; rw [h]

lemma ice_count_inv (c : Candidate) (hc : c.valid = true) (evs : List SigEv) :
    ∀ s : IceState,
      ((evs.foldl iceStep s).applied.count c + (evs.foldl iceStep s).pending.count c)
        = s.applied.count c + s.pending.count c + evs.count (SigEv.cand c) := by
  induction evs with
  | nil => intro s; simp
  | cons ev evs ih =>
    intro s
    have hstep : (iceStep s ev).applied.count c + (iceStep s ev).pending.count c
        = s.applied.count c + s.pending.count c
          + (if ev = SigEv.cand c then 1 else 0) := by
      cases ev with
      | cand c2 =>
        by_cases hv : c2.valid
        · by_cases hpc : s.pcExists
          · simp only [iceStep, hv, hpc, Bool.not_true, Bool.false_eq_true,
              if_false, List.count_append]
            by_cases hcc : c2 = c
            · subst hcc
              simp [List.count_singleton] <;> omega
            · simp [List.count_singleton, hcc, sigEv_cand_inj] <;> omega
          · simp only [iceStep, hv, Bool.not_true, Bool.false_eq_true, if_false,
              hpc, Bool.not_false, if_true, List.count_append]
            by_cases hcc : c2 = c
            · subst hcc
              simp [List.count_singleton] <;> omega
            · simp [List.count_singleton, hcc, sigEv_cand_inj] <;> omega
        · have hne : c2 ≠ c := fun h => by rw [h] at hv; exact hv hc
          simp [iceStep, hv, sigEv_cand_inj, hne] <;> omega
      | pcCreated => simp [iceStep]
      | remoteDescSet => simp [iceStep, List.count_append] <;> omega
    have := ih (iceStep s ev)
    simp only [List.foldl_cons, this, hstep, List.count_cons]
    by_cases hev : ev = SigEv.cand c
    · simp [hev] <;> omega
    · simp [hev] <;> omega

/-- C3, counterexample.  The claim states that every valid candidate arriving
before remote-description completion is buffered and only applied after the
remote description is set.  In the code, buffering is keyed on `self._pc`
being `None`, not on remote-description completion: in the trace
`[pcCreated, cand ⟨0, true⟩]` — the peer connection exists but
`setRemoteDescription` has not completed — the candidate is passed to
`pc.addIceCandidate` immediately (`applied = [⟨0, true⟩]`) instead of being
buffered (`pending = []`), with no `remoteDescSet` event in the trace. -/
theorem C3_counterexample :
    (iceRun [SigEv.pcCreated, SigEv.cand ⟨0, true⟩]).applied = [⟨0, true⟩] ∧
    (iceRun [SigEv.pcCreated, SigEv.cand ⟨0, true⟩]).pending = [] ∧
    [SigEv.pcCreated, SigEv.cand ⟨0, true⟩].count SigEv.remoteDescSet = 0 := by
  refine ⟨rfl, rfl, ?_⟩
  decide

/-- C3, amended.  Every valid candidate is accounted for exactly once per
arrival: after any interleaving, its occurrences in `applied` plus those in
`pending` equal its number of arrivals (applied exactly once, never lost or
duplicated).  Candidates arriving while no peer connection exists
(`self._pc is None`) are buffered; immediately after the remote description
is set the pending queue is appended to the applied sequence in its original
arrival order and the queue is cleared.  Candidates arriving while a peer
connection exists are applied immediately rather than buffered. -/
theorem C3_theorem (evs : List SigEv) (c : Candidate) (hc : c.valid = true) :
    ((iceRun evs).applied.count c + (iceRun evs).pending.count c
      = evs.count (SigEv.cand c)) ∧
    (∀ s : IceState, iceStep s SigEv.remoteDescSet =
      { s with applied := s.applied ++ s.pending, pending := [] }) ∧
    (∀ s : IceState, s.pcExists = false →
      iceStep s (SigEv.cand c) = { s with pending := s.pending ++ [c] }) ∧
    (∀ s : IceState, s.pcExists = true →
      iceStep s (SigEv.cand c) = { s with applied := s.applied ++ [c] }) := by
  refine ⟨?_, fun s => rfl, fun s hs => ?_, fun s hs => ?_⟩
  · have := ice_count_inv c hc evs iceInit
    simpa [iceRun, iceInit] using this
  · simp [iceStep, hc, hs]
  · simp [iceStep, hc, hs]

/-- C3, witness for the amended theorem: candidate `a` arrives before the
offer, `b` after the remote description is set; each is applied exactly
once. -/
theorem C3_witness :
    ((iceRun [SigEv.cand ⟨0, true⟩, SigEv.pcCreated, SigEv.remoteDescSet,
        SigEv.cand ⟨1, true⟩]).applied.count ⟨0, true⟩
      + (iceRun [SigEv.cand ⟨0, true⟩, SigEv.pcCreated, SigEv.remoteDescSet,
        SigEv.cand ⟨1, true⟩]).pending.count ⟨0, true⟩
      = [SigEv.cand ⟨0, true⟩, SigEv.pcCreated, SigEv.remoteDescSet,
        SigEv.cand ⟨1, true⟩].count (SigEv.cand ⟨0, true⟩)) ∧
    (∀ s : IceState, iceStep s SigEv.remoteDescSet =
      { s with applied := s.applied ++ s.pending, pending := [] }) :=
  ⟨(C3_theorem [SigEv.cand ⟨0, true⟩, SigEv.pcCreated, SigEv.remoteDescSet,
      SigEv.cand ⟨1, true⟩] ⟨0, true⟩ rfl).1,
   (C3_theorem [] ⟨0, true⟩ rfl).2.1⟩

/-! ### Stream lifecycle notifications (`on_track`, `_recv_video` /
`_recv_audio` cleanup, `stop_stream`) -/

/-- Lifecycle events observed by `WebRTCReceiver` within one session. -/
inductive LifeEv where
  /-- Handler `on_track` fires with `track.kind == "video"` (lines 121–132). -/
  | videoTrack
  /-- Handler `on_track` fires with `track.kind == "audio"` (lines 134–136);
  the handler itself fires no notification. -/
  | audioTrack
  /-- One iteration of `_recv_video`: a video frame is received and
  normalized (lines 168–185); no notification is fired here. -/
  | videoFrame
  /-- The awaited `track.recv()` in `_recv_video` raises — video-track end or
  peer-connection closure — so `_recv_video` leaves its loop and its
  `finally` block runs `_cleanup_after_stream_stop` (lines 187–191,
  296–306). -/
  | videoEnded
  /-- The awaited `track.recv()` in `_recv_audio` raises — audio-track end,
  an audio-side error, or peer-connection closure — and the `finally` block
  of `_recv_audio` also runs `_cleanup_after_stream_stop` (lines 281–294). -/
  | audioEnded
  /-- Explicit `stop_stream` call (lines 391–419). -/
  | stopEv
deriving Repr, DecidableEq

/-- Notification-relevant state: `self.has_stream` plus counters of
`on_stream_start` / `on_stream_stop` invocations. -/
structure LifeState where
  hasStream : Bool
  starts : ℕ
  stops : ℕ
deriving Repr, DecidableEq

/-- Transition read off the code: `on_track("video")` fires
`on_stream_start` iff `has_stream` is false and sets it;
`_cleanup_after_stream_stop` — reached from the `finally` of `_recv_video`,
from the `finally` of `_recv_audio` (line 294), and from `stop_stream` —
fires `on_stream_stop` iff `has_stream` is true and clears it; audio-track
arrival and video frames fire no notification. -/
def lifeStep (s : LifeState) : LifeEv → LifeState
  | .videoTrack =>
      if s.hasStream then s
      else { s with hasStream := true, starts := s.starts + 1 }
  | .audioTrack => s
  | .videoFrame => s
  | .videoEnded =>
      if s.hasStream then { s with hasStream := false, stops := s.stops + 1 }
      else s
  | .audioEnded =>
      if s.hasStream then { s with hasStream := false, stops := s.stops + 1 }
      else s
  | .stopEv =>
      if s.hasStream then { s with hasStream := false, stops := s.stops + 1 }
      else s

/-- Lifecycle state after a sequence of events, from the initial state
(`has_stream = False`, no notifications fired). -/
def lifeRun (evs : List LifeEv) : LifeState :=
  evs.foldl lifeStep ⟨false, 0, 0⟩

lemma life_balance (evs : List LifeEv) (s : LifeState)
    (h : s.starts = s.stops + (if s.hasStream then 1 else 0)) :
    (evs.foldl lifeStep s).starts =
      (evs.foldl lifeStep s).stops
        + (if (evs.foldl lifeStep s).hasStream then 1 else 0) := by
  induction evs generalizing s with
  | nil => exact h
  | cons ev evs ih =>
    refine ih (lifeStep s ev) ?_
    cases ev <;> simp only [lifeStep] <;> split <;> simp_all

/-- C4, counterexample.  Two defects of the claim as stated.  First, the
stream-start notification does not fire on the first video frame: it fires
inside `on_track` as soon as a video track attaches, so after the single
event `videoTrack` — with zero video frames received — `on_stream_start`
has already been invoked once.  Second, the stop-trigger list is
incomplete: in the trace `[videoTrack, audioEnded]` the audio pump ends
(its `finally`, line 294, runs `_cleanup_after_stream_stop`) and
`on_stream_stop` fires although no video-track end, no explicit stop and
no peer-connection closure occurred (a closure would also have ended the
video pump, producing a `videoEnded` event, absent from the trace). -/
theorem C4_counterexample :
    (lifeRun [LifeEv.videoTrack]).starts = 1 ∧
    [LifeEv.videoTrack].count LifeEv.videoFrame = 0 ∧
    (lifeRun [LifeEv.videoTrack, LifeEv.audioEnded]).stops = 1 ∧
    [LifeEv.videoTrack, LifeEv.audioEnded].count LifeEv.videoEnded = 0 ∧
    [LifeEv.videoTrack, LifeEv.audioEnded].count LifeEv.stopEv = 0 := by
  refine ⟨rfl, by decide, rfl, by decide, by decide⟩

/-- C4, amended.  The stream-start notification fires exactly once per
activation, on video-track arrival while the stream state is inactive (not
on the first video frame); the matching stop notification fires exactly
once, on the first cleanup trigger — video-track end, audio-track end (the
audio pump's `finally` also runs the cleanup), explicit stop, or
peer-connection closure (which ends both pumps) — and any start or stop
trigger in the wrong state is a no-op.  Formally: starts and stops stay
balanced (`starts = stops + 1` exactly while active); while inactive, every
cleanup trigger is a no-op and a video track fires one start; while active,
a video track fires nothing and each cleanup trigger fires exactly one
stop and deactivates. -/
theorem C4_theorem (evs : List LifeEv) (s : LifeState)
    (hs : s.hasStream = false) :
    ((lifeRun evs).starts =
      (lifeRun evs).stops + (if (lifeRun evs).hasStream then 1 else 0)) ∧
    (lifeStep s LifeEv.videoTrack
      = { s with hasStream := true, starts := s.starts + 1 }) ∧
    (lifeStep s LifeEv.videoEnded = s) ∧
    (lifeStep s LifeEv.audioEnded = s) ∧
    (lifeStep s LifeEv.stopEv = s) ∧
    (∀ t : LifeState, t.hasStream = true → lifeStep t LifeEv.videoTrack = t) ∧
    (∀ t : LifeState, t.hasStream = true →
      lifeStep t LifeEv.videoEnded
        = { t with hasStream := false, stops := t.stops + 1 } ∧
      lifeStep t LifeEv.audioEnded
        = { t with hasStream := false, stops := t.stops + 1 } ∧
      lifeStep t LifeEv.stopEv
        = { t with hasStream := false, stops := t.stops + 1 }) := by
    refine ⟨life_balance evs ⟨false, 0, 0⟩ rfl, ?_, ?_, ?_, ?_,
      fun t ht => ?_, fun t ht => ⟨?_, ?_, ?_⟩⟩ <;>
      simp [lifeStep, hs, *]

/-- C4, witness: a full activation — video track attaches (one start),
frames flow, the audio pump ends first (one stop), and later video end and
explicit stop are no-ops. -/
theorem C4_witness :
    ((lifeRun [LifeEv.videoTrack, LifeEv.videoFrame, LifeEv.videoFrame,
        LifeEv.audioEnded, LifeEv.videoEnded, LifeEv.stopEv]).starts =
      (lifeRun [LifeEv.videoTrack, LifeEv.videoFrame, LifeEv.videoFrame,
        LifeEv.audioEnded, LifeEv.videoEnded, LifeEv.stopEv]).stops
        + (if (lifeRun [LifeEv.videoTrack, LifeEv.videoFrame, LifeEv.videoFrame,
            LifeEv.audioEnded, LifeEv.videoEnded, LifeEv.stopEv]).hasStream
           then 1 else 0)) ∧
    (lifeStep ⟨false, 3, 3⟩ LifeEv.videoTrack = ⟨true, 4, 3⟩) ∧
    (lifeStep ⟨false, 3, 3⟩ LifeEv.videoEnded = ⟨false, 3, 3⟩) ∧
    (lifeStep ⟨false, 3, 3⟩ LifeEv.audioEnded = ⟨false, 3, 3⟩) ∧
    (lifeStep ⟨false, 3, 3⟩ LifeEv.stopEv = ⟨false, 3, 3⟩) ∧
    (∀ t : LifeState, t.hasStream = true → lifeStep t LifeEv.videoTrack = t) ∧
    (∀ t : LifeState, t.hasStream = true →
      lifeStep t LifeEv.videoEnded
        = { t with hasStream := false, stops := t.stops + 1 } ∧
      lifeStep t LifeEv.audioEnded
        = { t with hasStream := false, stops := t.stops + 1 } ∧
      lifeStep t LifeEv.stopEv
        = { t with hasStream := false, stops := t.stops + 1 }) :=
  C4_theorem [LifeEv.videoTrack, LifeEv.videoFrame, LifeEv.videoFrame,
    LifeEv.audioEnded, LifeEv.videoEnded, LifeEv.stopEv] ⟨false, 3, 3⟩ rfl

/-! ### Session replacement in `_handle_offer` (lines 93–119) and the
device bindings it does not release -/

/-- Session-level events around `receive_offer`.  Device-binding release is
a separate event because the code never awaits it: `pc.close()` closes the
transport, while `stop_virtual_camera` runs later, inside the pump tasks'
`finally` blocks, as separately scheduled work. -/
inductive SessEv where
  /-- Awaited `self._pc.close()` completes for the session with this id and
  `self._pc` is cleared (lines 94–100); the camera binding is untouched. -/
  | closePC (id : ℕ)
  /-- A new `RTCPeerConnection` with this id is constructed and assigned to
  `self._pc` (lines 102–119); the camera binding is untouched. -/
  | createPC (id : ℕ)
  /-- A pump task's `finally` runs `_cleanup_after_stream_stop`, which calls
  `stop_virtual_camera` and clears `self._virtual_cam_started`
  (lines 296–306, 382–389).  `_handle_offer` neither performs nor awaits
  this event. -/
  | pumpCleanup
deriving Repr, DecidableEq

/-- Session-level state: `self._pc` (a single `Option` field, so at most one
peer connection exists at any instant) and `self._virtual_cam_started`, the
camera device binding of the currently-or-previously active session. -/
structure PCState where
  pc : Option ℕ
  camBound : Bool
deriving Repr, DecidableEq

/-- Effect of each session-level event on the state. -/
def sessStep (s : PCState) : SessEv → PCState
  | .closePC _ => { s with pc := none }
  | .createPC id => { s with pc := some id }
  | .pumpCleanup => { s with camBound := false }

/-- State after a sequence of session-level events. -/
def sessRun (s : PCState) (evs : List SessEv) : PCState := evs.foldl sessStep s

/-- Events performed by the session-replacement prefix of `_handle_offer`
itself (lines 93–119): if `self._pc` is set, await its close and clear it,
then construct and assign the new `RTCPeerConnection`.  `pumpCleanup` is
deliberately absent: the handler never awaits the pumps' cleanup. -/
def handleOfferEvents (s : PCState) (newId : ℕ) : List SessEv :=
  match s.pc with
  | some old => [.closePC old, .createPC newId]
  | none => [.createPC newId]

/-- C5, counterexample.  The claim states the previous session's device
bindings are released before the new session is constructed.  Running
exactly the handler's own events from a state with an active session and a
bound camera yields a state where the new peer connection is assigned while
the old session's camera binding is still held (`camBound = true`):
`pc.close()` does not await the pump tasks' `finally` blocks, so nothing in
`_handle_offer` releases the binding before the new connection exists. -/
theorem C5_counterexample :
    handleOfferEvents ⟨some 3, true⟩ 7 = [SessEv.closePC 3, SessEv.createPC 7] ∧
    sessRun ⟨some 3, true⟩ (handleOfferEvents ⟨some 3, true⟩ 7)
      = ⟨some 7, true⟩ := by
  exact ⟨rfl, rfl⟩

/-- C5, amended.  `receive_offer`, called while a peer connection exists,
awaits the close of the existing connection and clears `self._pc` strictly
before constructing the replacement, so at most one peer connection exists
at any instant (the single `Option` field) and afterwards exactly the new
one is active.  The previous session's device-binding release is however
not part of the handler: it happens only when a pump task's cleanup
(`pumpCleanup`) runs, which `_handle_offer` neither performs nor awaits, so
the binding may still be held when the new connection is constructed. -/
theorem C5_theorem (s : PCState) (newId : ℕ) :
    ((sessRun s (handleOfferEvents s newId)).pc = some newId) ∧
    (∀ old, s.pc = some old →
      handleOfferEvents s newId = [SessEv.closePC old, SessEv.createPC newId]) ∧
    (s.pc = none →
      handleOfferEvents s newId = [SessEv.createPC newId]) ∧
    ((sessRun s (handleOfferEvents s newId)).camBound = s.camBound) ∧
    (∀ t : PCState, sessStep t SessEv.pumpCleanup = { t with camBound := false }) := by
  cases h : s.pc with
  | none =>
    refine ⟨by simp [handleOfferEvents, sessRun, sessStep, h],
      fun old hold => ?_, fun _ => ?_,
      by simp [handleOfferEvents, sessRun, sessStep, h], fun t => rfl⟩
    · exact absurd hold (by simp)
    · simp [handleOfferEvents, h]
  | some old0 =>
    refine ⟨by simp [handleOfferEvents, sessRun, sessStep, h],
      fun old hold => ?_, fun hnone => ?_,
      by simp [handleOfferEvents, sessRun, sessStep, h], fun t => rfl⟩
    · obtain rfl : old0 = old := by injection hold
      simp [handleOfferEvents, h]
    · exact absurd hnone (by simp)

/-- C5, witness: replacing session `3` by session `7` closes `3` (awaited)
strictly before creating `7`, leaves exactly session `7` active, and does
not release the camera binding. -/
theorem C5_witness :
    ((sessRun ⟨some 3, true⟩ (handleOfferEvents ⟨some 3, true⟩ 7)).pc = some 7) ∧
    (handleOfferEvents ⟨some 3, true⟩ 7
      = [SessEv.closePC 3, SessEv.createPC 7]) ∧
    ((sessRun ⟨some 3, true⟩ (handleOfferEvents ⟨some 3, true⟩ 7)).camBound
      = true) :=
  ⟨(C5_theorem ⟨some 3, true⟩ 7).1,
   (C5_theorem ⟨some 3, true⟩ 7).2.1 3 rfl,
   (C5_theorem ⟨some 3, true⟩ 7).2.2.2.1⟩

/-! ### Negotiation outcome of `_handle_offer` (lines 138–163) -/

/-- Answer payload passed to `send_answer_callback`. -/
structure AnswerPayload where
  type : String
  sdp : String
deriving Repr, DecidableEq

/-- Awaited negotiation steps inside the `try` block. -/
inductive NegStep where
  | setRemoteDescription
  | createAnswer
deriving Repr, DecidableEq

/-- Negotiation body of `_handle_offer`, parameterized by whether each
fallible awaited step succeeds (`remoteOk` for `setRemoteDescription`,
`answerOk` for `createAnswer` / `setLocalDescription`), and by the answer
SDP produced on success.  Per aiortc/WebRTC semantics, `createAnswer`
produces a description of type `"answer"`, which becomes
`pc.localDescription` and is echoed into the callback payload.  Returns the
list of payloads passed to `send_answer_callback`, whether the `except`
branch ran (failure logged, no retry), and the ordered list of negotiation
steps attempted. -/
def negotiate (remoteOk : Bool) (answerOk : Bool) (sdpOut : String) :
    List AnswerPayload × Bool × List NegStep :=
  if !remoteOk then ([], true, [.setRemoteDescription])
  else if !answerOk then ([], true, [.setRemoteDescription, .createAnswer])
  else ([⟨"answer", sdpOut⟩], false, [.setRemoteDescription, .createAnswer])

/-- C6.  If setting the remote description or creating the answer fails, the
exception is caught and logged and `send_answer_callback` is never invoked
(no payload list entry); each negotiation step is attempted at most once (no
internal retry).  Otherwise the callback is invoked exactly once, with a
payload whose `type` is `"answer"`. -/
theorem C6_theorem (remoteOk answerOk : Bool) (sdpOut : String)
    (hfail : remoteOk = false ∨ answerOk = false) :
    ((negotiate remoteOk answerOk sdpOut).1 = [] ∧
      (negotiate remoteOk answerOk sdpOut).2.1 = true) ∧
    (∀ st : NegStep, ((negotiate remoteOk answerOk sdpOut).2.2).count st ≤ 1) ∧
    (∀ ro ao : Bool, ∀ sd : String, ro = true → ao = true →
      (negotiate ro ao sd).1 = [⟨"answer", sd⟩] ∧
      (negotiate ro ao sd).1.length = 1 ∧
      (∀ p ∈ (negotiate ro ao sd).1, p.type = "answer") ∧
      (negotiate ro ao sd).2.1 = false) := by
  refine ⟨?_, ?_, fun ro ao sd hro hao => ?_⟩
  · rcases hfail with h | h
    · subst h; cases answerOk <;> simp [negotiate]
    · subst h; cases remoteOk <;> simp [negotiate]
  · intro st
    cases remoteOk <;> cases answerOk <;> cases st <;> simp [negotiate]
  · subst hro; subst hao
    refine ⟨by simp [negotiate], by simp [negotiate], ?_, by simp [negotiate]⟩
    intro p hp
    simp [negotiate] at hp
    rw [hp]

/-- C6, witness: a failing `setRemoteDescription` yields no callback and one
attempt of each step at most; a fully successful negotiation invokes the
callback exactly once with type `"answer"`. -/
theorem C6_witness :
    ((negotiate false true "x").1 = [] ∧ (negotiate false true "x").2.1 = true) ∧
    (∀ st : NegStep, ((negotiate false true "x").2.2).count st ≤ 1) ∧
    (∀ ro ao : Bool, ∀ sd : String, ro = true → ao = true →
      (negotiate ro ao sd).1 = [⟨"answer", sd⟩] ∧
      (negotiate ro ao sd).1.length = 1 ∧
      (∀ p ∈ (negotiate ro ao sd).1, p.type = "answer") ∧
      (negotiate ro ao sd).2.1 = false) :=
  C6_theorem false true "x" (Or.inl rfl)

/-! ### Idempotent `stop_stream` (lines 391–419) -/

/-- State of `WebRTCReceiver` touched by `stop_stream`.  Frames are
abstracted by an identifier. -/
structure ReceiverState where
  latest_frame : Option ℕ
  has_stream : Bool
  pc : Option ℕ
  preview_running : Bool
  virtual_cam_started : Bool
  vbc_running : Bool
deriving Repr, DecidableEq

/-- Method `stop_stream`, step by step: `stop_preview()`,
`stop_virtual_camera()`, close and clear `self._pc`, stop the VB-Cable
player, clear `self.latest_frame`, and finally fire `on_stream_stop` iff
`self.has_stream` was set, clearing it.  Returns the new state and whether
`on_stream_stop` was invoked. -/
def stop_stream (s : ReceiverState) : ReceiverState × Bool :=
  let s1 := { s with preview_running := false }
  let s2 := { s1 with virtual_cam_started := false }
  let s3 := { s2 with pc := none }
  let s4 := { s3 with vbc_running := false }
  let s5 := { s4 with latest_frame := none }
  if s5.has_stream then ({ s5 with has_stream := false }, true) else (s5, false)

/-- Preview read of the latest-frame cache (`self.latest_frame` under
`self._frame_lock`, as in `_preview_loop` lines 361–362). -/
def previewRead (s : ReceiverState) : Option ℕ := s.latest_frame

/-- C10.  After `stop_stream` returns, the latest-frame cache is empty (a
preview read yields no frame) and `has_stream` is false; hence a second call
to `stop_stream` returns the very same state and fires no notification. -/
theorem C10_theorem (s : ReceiverState) :
    previewRead (stop_stream s).1 = none ∧
    (stop_stream s).1.has_stream = false ∧
    stop_stream (stop_stream s).1 = ((stop_stream s).1, false) := by
  by_cases h : s.has_stream <;>
    simp [stop_stream, previewRead, h]

/-! ### Audio sample conversion in `_recv_audio` (lines 232–256) -/

/-- Truncation toward zero: the semantics of `numpy` float→integer
`astype` casts, over exact rationals. -/
def ratTrunc (q : ℚ) : ℤ := if 0 ≤ q then ⌊q⌋ else ⌈q⌉

/-- Sample clip `np.clip(s, -1.0, 1.0)` (line 245). -/
def clip1 (q : ℚ) : ℚ := min 1 (max (-1) q)

/-- Float-sample branch of the conversion (lines 244–246):
`s = np.clip(s, -1.0, 1.0); s = (s * 32767.0).astype(np.int16)`, the float
arithmetic modelled exactly over rationals. -/
def floatToInt16 (q : ℚ) : ℤ := ratTrunc (clip1 q * 32767)

/-- Integer-sample branch (lines 248–250) for a dtype whose maximum value is
`m = np.iinfo(s.dtype).max`:
`s = (s.astype(np.float32) / max_val * 32767.0).astype(np.int16)`. -/
def intToInt16 (m : ℕ) (x : ℤ) : ℤ := ratTrunc ((x : ℚ) / m * 32767)

lemma ratTrunc_le (q : ℚ) (c : ℤ) (hc : 0 ≤ c) (h : q ≤ (c : ℚ)) :
    ratTrunc q ≤ c := by
  unfold ratTrunc
  split
  · calc ⌊q⌋ ≤ ⌊(c : ℚ)⌋ := Int.floor_le_floor h
      _ = c := Int.floor_intCast c
  · rename_i hq
    push_neg at hq
    have h0 : ⌈q⌉ ≤ ⌈(0 : ℚ)⌉ := Int.ceil_le_ceil (le_of_lt hq)
    simpa using le_trans h0 hc

lemma ratTrunc_ge (q : ℚ) (c : ℤ) (hc : c ≤ 0) (h : (c : ℚ) ≤ q) :
    c ≤ ratTrunc q := by
  unfold ratTrunc
  split
  · rename_i hq
    exact le_trans hc (Int.floor_nonneg.mpr hq)
  · calc c = ⌈((c : ℤ) : ℚ)⌉ := (Int.ceil_intCast c).symm
      _ ≤ ⌈q⌉ := Int.ceil_le_ceil h

lemma clip1_mem (q : ℚ) : -1 ≤ clip1 q ∧ clip1 q ≤ 1 := by
  unfold clip1
  constructor
  · exact le_min (by norm_num) (le_max_left _ _)
  · exact min_le_left _ _

/-- C7.  Float samples are clipped to `[-1, 1]` and scaled by `32767`, so
every converted sample lies in `[-32767, 32767]`; samples at or beyond the
clip boundary saturate at `±32767`; a sample of amplitude `1/2` converts to
exactly `16383` (within the claimed `±1` of `16383`).  Integer samples of a
dtype with maximum value `m` are rescaled by `m` into the int16 range: for
`|x| ≤ m` the result lies in `[-32767, 32767]`, and for a signed wider dtype
(`32767 ≤ m`, minimum value `-(m+1)`) every representable sample lands in
the int16 range `[-32768, 32767]`. -/
theorem C7_theorem (q : ℚ) (m : ℕ) (x y : ℤ) (hm : 0 < m)
    (hx : |x| ≤ (m : ℤ)) (hm16 : 32767 ≤ (m : ℤ))
    (hy1 : -((m : ℤ) + 1) ≤ y) (hy2 : y ≤ (m : ℤ)) :
    (-32767 ≤ floatToInt16 q ∧ floatToInt16 q ≤ 32767) ∧
    ((1 : ℚ) ≤ q → floatToInt16 q = 32767) ∧
    (q ≤ -1 → floatToInt16 q = -32767) ∧
    floatToInt16 (1 / 2) = 16383 ∧
    (-32767 ≤ intToInt16 m x ∧ intToInt16 m x ≤ 32767) ∧
    (-32768 ≤ intToInt16 m y ∧ intToInt16 m y ≤ 32767) := by
  have hmq : (0 : ℚ) < (m : ℚ) := by exact_mod_cast hm
  refine ⟨?_, ?_, ?_, ?_, ?_, ?_⟩
  · obtain ⟨hlo, hhi⟩ := clip1_mem q
    constructor
    · refine ratTrunc_ge _ _ (by norm_num) ?_
      push_cast
      nlinarith
    · refine ratTrunc_le _ _ (by norm_num) ?_
      push_cast
      nlinarith
  · intro h1
    have hcl : clip1 q = 1 := by
      unfold clip1
      rw [max_eq_right (by linarith), min_eq_left h1]
    unfold floatToInt16 ratTrunc
    rw [hcl, if_pos (by norm_num), Int.floor_eq_iff]
    norm_num
  · intro h1
    have hcl : clip1 q = -1 := by
      unfold clip1
      rw [max_eq_left h1]
      exact min_eq_right (by norm_num)
    unfold floatToInt16 ratTrunc
    rw [hcl, if_neg (by norm_num), Int.ceil_eq_iff]
    norm_num
  · unfold floatToInt16 clip1 ratTrunc
    norm_num
  · have hxq : |(x : ℚ)| ≤ (m : ℚ) := by exact_mod_cast hx
    obtain ⟨h1, h2⟩ := abs_le.mp hxq
    constructor
    · refine ratTrunc_ge _ _ (by norm_num) ?_
      rw [div_mul_eq_mul_div, le_div_iff hmq]
      push_cast
      nlinarith
    · refine ratTrunc_le _ _ (by norm_num) ?_
      rw [div_mul_eq_mul_div, div_le_iff hmq]
      push_cast
      nlinarith
  · have hy1q : (-((m : ℚ) + 1)) ≤ (y : ℚ) := by exact_mod_cast hy1
    have hy2q : (y : ℚ) ≤ (m : ℚ) := by exact_mod_cast hy2
    have hm16q : (32767 : ℚ) ≤ (m : ℚ) := by exact_mod_cast hm16
    constructor
    · refine ratTrunc_ge _ _ (by norm_num) ?_
      rw [div_mul_eq_mul_div, le_div_iff hmq]
      push_cast
      nlinarith
    · refine ratTrunc_le _ _ (by norm_num) ?_
      rw [div_mul_eq_mul_div, div_le_iff hmq]
      push_cast
      nlinarith

/-- C7, witness at concrete inputs: amplitude `1/2` (with the int32 dtype,
`m = 2^31 − 1`, peak sample `x = 2^31 − 1` and minimum sample
`y = −2^31`). -/
theorem C7_witness :
    (-32767 ≤ floatToInt16 (1 / 2) ∧ floatToInt16 (1 / 2) ≤ 32767) ∧
    ((1 : ℚ) ≤ (1 : ℚ) / 2 → floatToInt16 (1 / 2) = 32767) ∧
    ((1 : ℚ) / 2 ≤ -1 → floatToInt16 (1 / 2) = -32767) ∧
    floatToInt16 (1 / 2) = 16383 ∧
    (-32767 ≤ intToInt16 2147483647 2147483647 ∧
      intToInt16 2147483647 2147483647 ≤ 32767) ∧
    (-32768 ≤ intToInt16 2147483647 (-2147483648) ∧
      intToInt16 2147483647 (-2147483648) ≤ 32767) :=
  C7_theorem (1 / 2) 2147483647 2147483647 (-2147483648)
    (by norm_num) (by norm_num) (by norm_num) (by norm_num) (by norm_num)

/-! ### Loudness metric in `_recv_audio` (lines 265–279) -/

/-- Mean of the squared normalized samples:
`f = s16.astype(np.float32) / 32768.0; np.mean(f * f)` (lines 273–274),
exact rational arithmetic.  The preceding reshape to `(-1, 2)` or `(-1, 1)`
does not change the mean over all entries. -/
def meanSq (samples : List ℤ) : ℚ :=
  (samples.map fun x : ℤ => ((x : ℚ) / 32768) ^ 2).sum / samples.length

/-- Loudness assignment
`self.audio_level = max(0.0, min(1.0, rms * 4.2))` with
`rms = np.sqrt(np.mean(f * f))` (lines 274–276). -/
noncomputable def audio_level (samples : List ℤ) : ℝ :=
  max 0 (min 1 (Real.sqrt ((meanSq samples : ℚ) : ℝ) * 4.2))

/-- A full-scale alternating int16 buffer: `k` repetitions of the sample
pair `+32767, -32768`. -/
def altBuf : ℕ → List ℤ
  | 0 => []
  | k + 1 => 32767 :: -32768 :: altBuf k

lemma altBuf_length (k : ℕ) : (altBuf k).length = 2 * k := by
  induction k with
  | zero => rfl
  | succ k ih => simp [altBuf, ih]; ring

lemma altBuf_sumSq (k : ℕ) :
    ((altBuf k).map fun x : ℤ => ((x : ℚ) / 32768) ^ 2).sum
      = k * (((32767 : ℚ) / 32768) ^ 2 + 1) := by
  induction k with
  | zero => simp [altBuf]
  | succ k ih =>
    simp only [altBuf, List.map_cons, List.sum_cons, ih]
    push_cast
    ring

lemma meanSq_altBuf (k : ℕ) (hk : 0 < k) :
    meanSq (altBuf k) = (((32767 : ℚ) / 32768) ^ 2 + 1) / 2 := by
  unfold meanSq
  rw [altBuf_sumSq, altBuf_length]
  have hk0 : ((k : ℚ)) ≠ 0 := Nat.cast_ne_zero.mpr hk.ne'
  push_cast
  field_simp
  ring

/-- C8.  The loudness level equals the root-mean-square of the int16 samples
normalized to `[-1, 1]`, multiplied by the gain `4.2` and clamped to `[0, 1]`
(the lower clamp is never active since the RMS is nonnegative); an all-zero
buffer yields exactly `0`; a full-scale alternating `+32767 / −32768` buffer
yields exactly `1` (clamped). -/
theorem C8_theorem (n k : ℕ) (hn : 0 < n) (hk : 0 < k) :
    (∀ samples : List ℤ,
      audio_level samples
        = min 1 (Real.sqrt ((meanSq samples : ℚ) : ℝ) * 4.2)) ∧
    audio_level (List.replicate n 0) = 0 ∧
    audio_level (altBuf k) = 1 := by
  have hnn : ∀ samples : List ℤ,
      (0 : ℝ) ≤ Real.sqrt ((meanSq samples : ℚ) : ℝ) * 4.2 := fun samples =>
    mul_nonneg (Real.sqrt_nonneg _) (by norm_num)
  refine ⟨fun samples => ?_, ?_, ?_⟩
  · unfold audio_level
    exact max_eq_right (le_min (by norm_num) (hnn samples))
  · have hzero : meanSq (List.replicate n 0) = 0 := by
      unfold meanSq
      simp
    unfold audio_level
    rw [hzero]
    norm_num
  · have hmean := meanSq_altBuf k hk
    unfold audio_level
    rw [hmean]
    have hhalf : ((1 : ℝ) / 2) ≤ (((((32767 : ℚ) / 32768) ^ 2 + 1) / 2 : ℚ) : ℝ) := by
      push_cast
      nlinarith
    have hsq : ((1 : ℝ) / 4.2) ^ 2 ≤ (((((32767 : ℚ) / 32768) ^ 2 + 1) / 2 : ℚ) : ℝ) := by
      nlinarith [hhalf]
    have hroot : (1 : ℝ) / 4.2 ≤
        Real.sqrt (((((32767 : ℚ) / 32768) ^ 2 + 1) / 2 : ℚ) : ℝ) := by
      have h1 := Real.sqrt_le_sqrt hsq
      rwa [Real.sqrt_sq (by norm_num : (0 : ℝ) ≤ 1 / 4.2)] at h1
    have hone : (1 : ℝ) ≤
        Real.sqrt (((((32767 : ℚ) / 32768) ^ 2 + 1) / 2 : ℚ) : ℝ) * 4.2 := by
      nlinarith [hroot]
    rw [min_eq_left hone]
    norm_num

/-- C8, witness at `n = 1`, `k = 1`. -/
theorem C8_witness :
    (∀ samples : List ℤ,
      audio_level samples
        = min 1 (Real.sqrt ((meanSq samples : ℚ) : ℝ) * 4.2)) ∧
    audio_level (List.replicate 1 0) = 0 ∧
    audio_level (altBuf 1) = 1 :=
  C8_theorem 1 1 (by decide) (by decide)

end CamRelay
